import Mathlib

/-!
# Keystore decryptor: embedding of `1234.c`

The program scans a keystore directory, classifies every file by its header
(`detect_keystore_type`), decrypts it (`decrypt_standard_keystore`,
`decrypt_raw_keystore`) and appends text to a report (`mfkeys_decrypt_app`).

The firmware services the program calls (flipper-format reader, stream,
keystore, storage, heap) are not part of the program; they are a record of
state-passing functions `Collab σ` over an arbitrary service state `σ`.
The report is the list of strings handed to `storage_file_write`, in order.
The calls made to the services are recorded in an event trace.
-/

namespace Decryptor

/-! ## Machine integers -/

/-- Width of `size_t` on the target (32-bit ARM). -/
def SIZE_BITS : Nat := 32

/-- Addition on `size_t`. -/
def size_add (a b : Nat) : Nat := (a + b) % 2 ^ SIZE_BITS

/-- Subtraction on `size_t` (wraps around). -/
def size_sub (a b : Nat) : Nat := (a % 2 ^ SIZE_BITS + 2 ^ SIZE_BITS - b % 2 ^ SIZE_BITS) % 2 ^ SIZE_BITS

/-- The constant `RAW_DECRYPT_MAX`. -/
def RAW_DECRYPT_MAX : Nat := 480

/-! ## printf conversions -/

/-- Digit table of the `%X` and `%u` conversions, `"0123456789ABCDEF"[d]`. -/
def digitUpper (d : Nat) : Char :=
  match d with
  | 0 => '0' | 1 => '1' | 2 => '2' | 3 => '3'
  | 4 => '4' | 5 => '5' | 6 => '6' | 7 => '7'
  | 8 => '8' | 9 => '9' | 10 => 'A' | 11 => 'B'
  | 12 => 'C' | 13 => 'D' | 14 => 'E' | _ => 'F'

/-- Digits of `n` in the given base, most significant first, no leading zero
(a single `0` for zero).  The first argument bounds the number of digits. -/
def digits_core (base : Nat) : Nat → Nat → List Char
  | 0, _ => []
  | fuel + 1, n =>
    if n < base then [digitUpper n]
    else digits_core base fuel (n / base) ++ [digitUpper (n % base)]

/-- The conversions `%u` and `%zu`: decimal, no padding. -/
def printf_u (n : Nat) : String := String.mk (digits_core 10 (n + 1) n)

/-- The conversion `%0<width>X` (also `%0<width>llX`): uppercase hex, padded on the
left with zeros up to `width` characters, never truncated. -/
def printf_X (width n : Nat) : String :=
  let ds := digits_core 16 (n + 1) n
  String.mk (List.replicate (width - ds.length) '0' ++ ds)

/-! ## Data model -/

/-- The enum `KeystoreFileType`. -/
inductive KeystoreFileType
  | KeystoreFileStandard
  | KeystoreFileRaw
  | KeystoreFileUnknown
  deriving DecidableEq

open KeystoreFileType

/-- One entry of the keystore's key array: `key` is a `uint64_t`, `type` an
unsigned integer code, `name` a string. -/
structure SubGhzKey where
  key : Nat
  type : Nat
  name : String
  deriving DecidableEq

/-- What `storage_dir_read` yields for one entry: its name and whether
`file_info_is_dir` holds. -/
structure DirEntry where
  name : String
  is_dir : Bool
  deriving DecidableEq

/-- Calls recorded in the trace. -/
inductive Event
  | file_open (path : String)
  | dir_open (path : String)
  | dir_read
  | detect (path : String)
  | keystore_load (path : String)
  | raw_get_data (path : String) (offset : Nat) (len : Nat)
  deriving DecidableEq

/-- The firmware services, as state-passing functions over a service state `σ`.
A failing call is `false` or `none`.  `storage_dir_open` yields, on success, the
finite listing that the following `storage_dir_read` calls enumerate. -/
structure Collab (σ : Type) where
  flipper_format_file_open_existing : σ → String → Bool × σ
  flipper_format_read_header : σ → Option (String × Nat) × σ
  flipper_format_read_uint32 : σ → String → Bool × σ
  flipper_format_read_hex : σ → String → Nat → Bool × σ
  flipper_format_read_string : σ → String → Bool × σ
  stream_read : σ → Nat → σ
  stream_size : σ → Nat
  stream_tell : σ → Nat
  subghz_keystore_alloc : σ → Bool × σ
  subghz_keystore_load : σ → String → Option (List SubGhzKey) × σ
  malloc : σ → Nat → Bool × σ
  subghz_keystore_raw_get_data : σ → String → Nat → Nat → Option (List Nat) × σ
  storage_file_open : σ → String → Bool × σ
  storage_dir_open : σ → String → Option (List DirEntry) × σ

/-- Program state: the service state, the report written so far (one string per
`storage_file_write`), and the trace of calls. -/
structure State (σ : Type) where
  ext : σ
  report : List String
  events : List Event
  deriving DecidableEq

/-! ## `detect_keystore_type` -/

/-- The function `detect_keystore_type`.  `raw_data_size` is the value behind the
out-pointer on entry; the second component of the result is its value on return. -/
def detect_keystore_type {σ : Type} (c : Collab σ) (s : σ) (path : String)
    (raw_data_size : Nat) : KeystoreFileType × Nat × σ :=
  match c.flipper_format_file_open_existing s path with
  | (false, s) => (KeystoreFileUnknown, raw_data_size, s)
  | (true, s) =>
    match c.flipper_format_read_header s with
    | (none, s) => (KeystoreFileUnknown, raw_data_size, s)
    | (some (ft, version), s) =>
      if ft = "Flipper SubGhz Keystore File" ∧ version = 0 then
        (KeystoreFileStandard, raw_data_size, s)
      else if ft = "Flipper SubGhz Keystore RAW File" ∧ version = 0 then
        match c.flipper_format_read_uint32 s "Encryption" with
        | (false, s) => (KeystoreFileRaw, raw_data_size, s)
        | (true, s) =>
          let s := (c.flipper_format_read_hex s "IV" 16).2
          match c.flipper_format_read_string s "Encrypt_data" with
          | (false, s) => (KeystoreFileRaw, raw_data_size, s)
          | (true, s) =>
            let s := c.stream_read s 1
            let remaining := size_sub (c.stream_size s) (c.stream_tell s)
            (KeystoreFileRaw, remaining / 2, s)
      else (KeystoreFileUnknown, raw_data_size, s)

/-! ## `decrypt_standard_keystore` -/

/-- The line `"%016llX:%u:%s\n"` of one key. -/
def key_line (k : SubGhzKey) : String :=
  printf_X 16 (k.key % 2 ^ 64) ++ ":" ++ printf_u (k.type % 2 ^ 32) ++ ":" ++ k.name ++ "\n"

/-- The function `decrypt_standard_keystore`: the number of keys written and the
new state. -/
def decrypt_standard_keystore {σ : Type} (c : Collab σ) (st : State σ) (path : String) :
    Nat × State σ :=
  match c.subghz_keystore_alloc st.ext with
  | (false, e) => (0, { st with ext := e })
  | (true, e) =>
    let events := st.events ++ [Event.keystore_load path]
    match c.subghz_keystore_load e path with
    | (none, e) =>
      (0, { ext := e, report := st.report ++ ["# (failed to decrypt)\n"], events := events })
    | (some keys, e) =>
      let key_count := keys.length
      (key_count,
        { ext := e, report := keys.foldl (fun r k => r ++ [key_line k]) st.report,
          events := events })

/-! ## `decrypt_raw_keystore` -/

/-- The inner loop of the hex dump: appends to `line` the bytes
`buffer[off] .. buffer[off + chunk - 1]`, each as `%02X`, with one space after every
byte but the last. -/
def hex_line_bytes (buffer : List Nat) (off chunk : Nat) (line : String) : String :=
  (List.range chunk).foldl
    (fun line j =>
      let line := line ++ printf_X 2 (buffer.getD (off + j) 0)
      if j < chunk - 1 then line ++ " " else line)
    line

/-- The outer loop of the hex dump, `for(off = 0; off < data_size; off += 32)`,
from offset `off` on.  The first argument bounds the number of iterations. -/
def hex_dump_loop (buffer : List Nat) (data_size : Nat) :
    Nat → Nat → List String → List String
  | 0, _, report => report
  | fuel + 1, off, report =>
    if off < data_size then
      let chunk := data_size - off
      let chunk := if chunk > 32 then 32 else chunk
      let line := printf_X 4 (off % 2 ^ 32) ++ ": "
      let line := hex_line_bytes buffer off chunk line
      let line := line ++ "\n"
      hex_dump_loop buffer data_size fuel (off + 32) (report ++ [line])
    else report

/-- The function `decrypt_raw_keystore`: its boolean result and the new state.
The dump loop advances by 32 per iteration, so `data_size` iterations suffice. -/
def decrypt_raw_keystore {σ : Type} (c : Collab σ) (st : State σ) (path : String)
    (data_size : Nat) : Bool × State σ :=
  if data_size = 0 ∨ data_size > RAW_DECRYPT_MAX then
    (false,
      { st with report := st.report ++ ["# (RAW data too large: " ++ printf_u data_size ++ " bytes)\n"] })
  else
    match c.malloc st.ext data_size with
    | (false, e) => (false, { st with ext := e })
    | (true, e) =>
      let events := st.events ++ [Event.raw_get_data path 0 data_size]
      match c.subghz_keystore_raw_get_data e path 0 data_size with
      | (none, e) =>
        (false,
          { ext := e, report := st.report ++ ["# (failed to decrypt RAW data)\n"],
            events := events })
      | (some buffer, e) =>
        (true,
          { ext := e, report := hex_dump_loop buffer data_size data_size 0 st.report,
            events := events })

/-! ## `mfkeys_decrypt_app` -/

/-- The two counters of the driver. -/
structure Totals where
  total_files : Nat
  total_keys : Nat
  deriving DecidableEq

/-- The four-line header of the report. -/
def header : String :=
  "# Decrypted SubGhz Keystore\n" ++ "# Standard files: KEY:TYPE:NAME\n" ++
  "# RAW files: hex dump of decrypted data\n" ++ "#\n"

/-- The body of the driver loop for one entry that is not a directory. -/
def loop_body {σ : Type} (c : Collab σ) (KEYSTORE_DIR : String) (name : String)
    (acc : Totals × State σ) : Totals × State σ :=
  let t := acc.1
  let st := acc.2
  let path := KEYSTORE_DIR ++ "/" ++ name
  let raw_size := 0
  let st := { st with events := st.events ++ [Event.detect path] }
  match detect_keystore_type c st.ext path raw_size with
  | (KeystoreFileStandard, _, e) =>
    let st := { st with ext := e,
                        report := st.report ++ ["\n# File: " ++ name ++ " (standard keystore)\n"] }
    let r := decrypt_standard_keystore c st path
    ({ total_files := size_add t.total_files 1, total_keys := size_add t.total_keys r.1 }, r.2)
  | (KeystoreFileRaw, raw_size, e) =>
    let st := { st with ext := e,
                        report := st.report ++
                          ["\n# File: " ++ name ++ " (RAW keystore, " ++ printf_u raw_size ++ " bytes)\n"] }
    let r := decrypt_raw_keystore c st path raw_size
    ({ t with total_files := size_add t.total_files 1 }, r.2)
  | (KeystoreFileUnknown, _, e) =>
    let st := { st with ext := e,
                        report := st.report ++ ["\n# File: " ++ name ++ " (unknown format, skipped)\n"] }
    ({ t with total_files := size_add t.total_files 1 }, st)

/-- The driver loop `while(storage_dir_read(...))` over the listing; the last
`storage_dir_read` returns false. -/
def dir_loop {σ : Type} (c : Collab σ) (KEYSTORE_DIR : String) :
    List DirEntry → Totals × State σ → Totals × State σ
  | [], acc => (acc.1, { acc.2 with events := acc.2.events ++ [Event.dir_read] })
  | entry :: rest, acc =>
    let acc := (acc.1, { acc.2 with events := acc.2.events ++ [Event.dir_read] })
    if entry.is_dir then dir_loop c KEYSTORE_DIR rest acc
    else dir_loop c KEYSTORE_DIR rest (loop_body c KEYSTORE_DIR entry.name acc)

/-- Result of a run: the returned status, the totals logged at the end, and the
final state. -/
structure AppResult (σ : Type) where
  status : Int
  totals : Totals
  state : State σ

/-- The function `mfkeys_decrypt_app`, started in service state `s`. -/
def mfkeys_decrypt_app {σ : Type} (c : Collab σ) (KEYSTORE_DIR OUTPUT_FILE : String) (s : σ) :
    AppResult σ :=
  let t : Totals := { total_files := 0, total_keys := 0 }
  match c.storage_file_open s OUTPUT_FILE with
  | (false, s) =>
    { status := -1, totals := t,
      state := { ext := s, report := [], events := [Event.file_open OUTPUT_FILE] } }
  | (true, s) =>
    let report := [header]
    let events := [Event.file_open OUTPUT_FILE, Event.dir_open KEYSTORE_DIR]
    match c.storage_dir_open s KEYSTORE_DIR with
    | (none, s) =>
      { status := -1, totals := t, state := { ext := s, report := report, events := events } }
    | (some listing, s) =>
      let r := dir_loop c KEYSTORE_DIR listing (t, { ext := s, report := report, events := events })
      { status := 0, totals := r.1, state := r.2 }

/-! ## Specification-side definitions -/

/-- The `w` least significant base-16 digits of `n`, most significant first: `n` as
exactly `w` uppercase hex digits, padded with zeros. -/
def hex_digits_fixed : Nat → Nat → List Char
  | 0, _ => []
  | w + 1, n => hex_digits_fixed w (n / 16) ++ [digitUpper (n % 16)]

/-- Value of an uppercase hex digit: the position of the character in the table
`0123456789ABCDEF`, if it is there. -/
def hex_value (ch : Char) : Option Nat :=
  (List.range 16).find? (fun d => digitUpper d == ch)

/-- Whether a character is one of `0123456789ABCDEF`. -/
def is_upper_hex (ch : Char) : Bool := (hex_value ch).isSome

/-- Tokens joined by single spaces, no space after the last one. -/
def join_spaces : List (List Char) → List Char
  | [] => []
  | [x] => x
  | x :: y :: rest => x ++ ' ' :: join_spaces (y :: rest)

/-- The bytes shown on line `i` of the dump of `buffer`: the
`min 32 (length - 32 * i)` bytes starting at `32 * i`. -/
def spec_line_bytes (buffer : List Nat) (i : Nat) : List Nat :=
  (buffer.drop (32 * i)).take (min 32 (buffer.length - 32 * i))

/-- Line `i` of the dump as the specification words it: the offset `32 * i` as four
uppercase hex digits, `": "`, the bytes of the line as two uppercase hex digits each,
separated by single spaces, and a newline. -/
def spec_dump_line (buffer : List Nat) (i : Nat) : String :=
  String.mk (hex_digits_fixed 4 (32 * i)) ++ ": " ++
    String.mk (join_spaces ((spec_line_bytes buffer i).map (hex_digits_fixed 2))) ++ "\n"

/-- The number written by a string of uppercase hex digits, if it is one. -/
def hex_number (cs : List Char) : Option Nat :=
  cs.foldl
    (fun acc ch =>
      match acc, hex_value ch with
      | some a, some d => some (16 * a + d)
      | _, _ => none)
    (some 0)

/-- The line of one key as the specification words it: the key as exactly 16
uppercase hex digits, the type code in decimal, the name verbatim. -/
def spec_key_line (k : SubGhzKey) : String :=
  String.mk (hex_digits_fixed 16 k.key) ++ ":" ++ toString k.type ++ ":" ++ k.name ++ "\n"

/-- The number of keys the loop body adds to the keys-written total for the entry
`name`, started in state `st`: the count returned by `decrypt_standard_keystore` when
the entry is classified Standard, 0 when it is classified Raw or Unknown. -/
def entry_keys {σ : Type} (c : Collab σ) (dir name : String) (st : State σ) : Nat :=
  match detect_keystore_type c st.ext (dir ++ "/" ++ name) 0 with
  | (KeystoreFileStandard, _, e) =>
    (decrypt_standard_keystore c { st with ext := e } (dir ++ "/" ++ name)).1
  | (KeystoreFileRaw, _, _) => 0
  | (KeystoreFileUnknown, _, _) => 0

/-- The list of `entry_keys`, one per entry of the listing that is not a directory,
each taken in the state in which the driver loop reaches that entry. -/
def key_counts {σ : Type} (c : Collab σ) (dir : String) :
    List DirEntry → Totals × State σ → List Nat
  | [], _ => []
  | entry :: rest, acc =>
    let acc := (acc.1, { acc.2 with events := acc.2.events ++ [Event.dir_read] })
    if entry.is_dir then key_counts c dir rest acc
    else entry_keys c dir entry.name acc.2 :: key_counts c dir rest (loop_body c dir entry.name acc)

/-- The entries of a listing that are not directories. -/
def regular_entries (listing : List DirEntry) : List DirEntry :=
  listing.filter (fun entry => !entry.is_dir)

/-- The state in which the driver enters its loop, for the service state `e` left
by the two opening calls. -/
def loop_start {σ : Type} (dir out : String) (e : σ) : Totals × State σ :=
  ({ total_files := 0, total_keys := 0 },
    { ext := e, report := [header],
      events := [Event.file_open out, Event.dir_open dir] })

/-- The number of lines of a text that begin with `#`.  The flag tells whether the
text starts at the beginning of a line. -/
def count_hash_lines : Bool → List Char → Nat
  | _, [] => 0
  | at_start, ch :: rest =>
    (if at_start && ch == '#' then 1 else 0) + count_hash_lines (ch == '\n') rest

/-- The number of annotation lines (lines beginning with `#`) in the text made of
the given writes, the first write starting a line. -/
def annotation_lines (writes : List String) : Nat :=
  count_hash_lines true (writes.map String.data).flatten

/-- Whether an event is a call of `detect_keystore_type`. -/
def is_detect : Event → Bool
  | Event.detect _ => true
  | _ => false

/-- Whether the loop body, run on entry `name` in state `st`, reports a failed
decryption: a standard keystore that fails to load, a raw keystore whose length is 0
or above `RAW_DECRYPT_MAX`, or a raw keystore whose decrypt call fails.  (A failed
allocation is not reported.) -/
def reports_failure {σ : Type} (c : Collab σ) (dir name : String) (st : State σ) : Bool :=
  match detect_keystore_type c st.ext (dir ++ "/" ++ name) 0 with
  | (KeystoreFileStandard, _, e) =>
    match c.subghz_keystore_alloc e with
    | (true, e1) => (c.subghz_keystore_load e1 (dir ++ "/" ++ name)).1.isNone
    | (false, _) => false
  | (KeystoreFileRaw, n, e) =>
    if n = 0 ∨ n > RAW_DECRYPT_MAX then true
    else
      match c.malloc e n with
      | (true, e1) => (c.subghz_keystore_raw_get_data e1 (dir ++ "/" ++ name) 0 n).1.isNone
      | (false, _) => false
  | (KeystoreFileUnknown, _, _) => false

/-- Decodes two-digit uppercase hex tokens separated by single spaces. -/
def decode_tokens : List Char → Option (List Nat)
  | [] => some []
  | [a, b] =>
    match hex_number [a, b] with
    | some v => some [v]
    | none => none
  | a :: b :: sep :: rest =>
    if sep = ' ' then
      match hex_number [a, b], decode_tokens rest with
      | some v, some vs => some (v :: vs)
      | _, _ => none
    else none
  | _ => none

/-- Decodes one line of the dump: drops the six characters of the `OFFS: ` prefix and
the final newline, then decodes the tokens. -/
def decode_line (line : String) : Option (List Nat) :=
  decode_tokens ((line.data.drop 6).dropLast)

/-- Decodes the lines of a dump in order and concatenates their bytes. -/
def decode_dump (lines : List String) : Option (List Nat) :=
  lines.foldr
    (fun line acc =>
      match decode_line line, acc with
      | some bytes, some rest => some (bytes ++ rest)
      | _, _ => none)
    (some [])

/-- The `# File:` line the driver writes for the entry `name` in state `st`, by the
kind the entry is classified as. -/
def entry_file_line {σ : Type} (c : Collab σ) (dir name : String) (st : State σ) : String :=
  match detect_keystore_type c st.ext (dir ++ "/" ++ name) 0 with
  | (KeystoreFileStandard, _, _) => "\n# File: " ++ name ++ " (standard keystore)\n"
  | (KeystoreFileRaw, n, _) =>
    "\n# File: " ++ name ++ " (RAW keystore, " ++ toString n ++ " bytes)\n"
  | (KeystoreFileUnknown, _, _) => "\n# File: " ++ name ++ " (unknown format, skipped)\n"

/-- The failure line written for the entry `name` in state `st`, if its decryption
fails with a report: `# (failed to decrypt)` for a standard keystore that fails to
load, `# (RAW data too large: <n> bytes)` for a raw length of 0 or above
`RAW_DECRYPT_MAX`, `# (failed to decrypt RAW data)` for a failed raw decrypt call;
none otherwise. -/
def entry_failure_line {σ : Type} (c : Collab σ) (dir name : String) (st : State σ) :
    Option String :=
  match detect_keystore_type c st.ext (dir ++ "/" ++ name) 0 with
  | (KeystoreFileStandard, _, e) =>
    match c.subghz_keystore_alloc e with
    | (true, e1) =>
      match (c.subghz_keystore_load e1 (dir ++ "/" ++ name)).1 with
      | none => some "# (failed to decrypt)\n"
      | some _ => none
    | (false, _) => none
  | (KeystoreFileRaw, n, e) =>
    if n = 0 ∨ n > RAW_DECRYPT_MAX then
      some ("# (RAW data too large: " ++ toString n ++ " bytes)\n")
    else
      match c.malloc e n with
      | (true, e1) =>
        match (c.subghz_keystore_raw_get_data e1 (dir ++ "/" ++ name) 0 n).1 with
        | none => some "# (failed to decrypt RAW data)\n"
        | some _ => none
      | (false, _) => none
  | (KeystoreFileUnknown, _, _) => none

/-! ## Test fixtures -/

/-- A service record over the trivial state in which every call fails. -/
def failing : Collab Unit where
  flipper_format_file_open_existing := fun s _ => (false, s)
  flipper_format_read_header := fun s => (none, s)
  flipper_format_read_uint32 := fun s _ => (false, s)
  flipper_format_read_hex := fun s _ _ => (false, s)
  flipper_format_read_string := fun s _ => (false, s)
  stream_read := fun s _ => s
  stream_size := fun _ => 0
  stream_tell := fun _ => 0
  subghz_keystore_alloc := fun s => (false, s)
  subghz_keystore_load := fun s _ => (none, s)
  malloc := fun s _ => (false, s)
  subghz_keystore_raw_get_data := fun s _ _ _ => (none, s)
  storage_file_open := fun s _ => (false, s)
  storage_dir_open := fun s _ => (none, s)

/-- Services for a raw keystore: the heap allocation succeeds and the raw decrypt
call fills the buffer with the bytes `0, 1, ..., len - 1`. -/
def raw_ok : Collab Unit :=
  { failing with
    malloc := fun s _ => (true, s)
    subghz_keystore_raw_get_data := fun s _ _ len => (some (List.range len), s) }

/-- Three sample keys. -/
def sample_keys : List SubGhzKey :=
  [⟨0x1122334455667788, 1, "Alpha"⟩, ⟨0xAB, 2, "Beta"⟩, ⟨0xFFFFFFFFFFFFFFFF, 10, "Gamma:x"⟩]

/-- Services for a directory holding the single standard keystore file `keys` with
the three sample keys. -/
def standard_ok : Collab Unit :=
  { failing with
    flipper_format_file_open_existing := fun s _ => (true, s)
    flipper_format_read_header := fun s => (some ("Flipper SubGhz Keystore File", 0), s)
    subghz_keystore_alloc := fun s => (true, s)
    subghz_keystore_load := fun s _ => (some sample_keys, s)
    storage_file_open := fun s _ => (true, s)
    storage_dir_open := fun s _ => (some [⟨"keys", false⟩], s) }

/-- Services for a raw keystore file read through a cursor: the service state is the
position of the stream cursor.  The header ends at 50, the `Encryption` field at 64,
the `IV` field at 120, the `Encrypt_data` field at 138; the stream is 268 characters
long, so that 129 characters follow the delimiter at 138.  The directory holds this
one file, and the raw decrypt call yields the bytes `0, 1, ..., len - 1`. -/
def raw_file : Collab Nat where
  flipper_format_file_open_existing := fun _ _ => (true, 0)
  flipper_format_read_header := fun _ => (some ("Flipper SubGhz Keystore RAW File", 0), 50)
  flipper_format_read_uint32 := fun _ _ => (true, 64)
  flipper_format_read_hex := fun _ _ _ => (true, 120)
  flipper_format_read_string := fun _ _ => (true, 138)
  stream_read := fun s n => s + n
  stream_size := fun _ => 268
  stream_tell := fun s => s
  subghz_keystore_alloc := fun s => (true, s)
  subghz_keystore_load := fun s _ => (none, s)
  malloc := fun s _ => (true, s)
  subghz_keystore_raw_get_data := fun s _ _ len => (some (List.range len), s)
  storage_file_open := fun s _ => (true, s)
  storage_dir_open := fun s _ => (some [⟨"raw", false⟩], s)

/-- Services for a file with the raw keystore header whose `Encrypt_data` field
cannot be read. -/
def raw_truncated : Collab Unit :=
  { failing with
    flipper_format_file_open_existing := fun s _ => (true, s)
    flipper_format_read_header := fun s => (some ("Flipper SubGhz Keystore RAW File", 0), s)
    flipper_format_read_uint32 := fun s _ => (true, s)
    flipper_format_read_hex := fun s _ _ => (true, s)
    storage_file_open := fun s _ => (true, s)
    storage_dir_open := fun s _ => (some [⟨"cut", false⟩], s) }

/-- Services for a standard keystore file that fails to load. -/
def standard_broken : Collab Unit :=
  { standard_ok with subghz_keystore_load := fun s _ => (none, s) }

/-! ## Lemmas -/

theorem hex_value_digitUpper (d : Nat) (h : d < 16) : hex_value (digitUpper d) = some d := by
  interval_cases d <;> rfl

theorem hex_digits_fixed_length (w n : Nat) : (hex_digits_fixed w n).length = w := by
  induction w generalizing n with
  | zero => rfl
  | succ w ih => simp [hex_digits_fixed, ih]

theorem hex_digits_fixed_upper (w n : Nat) :
    ∀ ch ∈ hex_digits_fixed w n, is_upper_hex ch = true := by
  induction w generalizing n with
  | zero => simp [hex_digits_fixed]
  | succ w ih =>
    intro ch hch
    simp only [hex_digits_fixed, List.mem_append, List.mem_singleton] at hch
    rcases hch with hch | hch
    · exact ih _ ch hch
    · subst hch
      simp [is_upper_hex, hex_value_digitUpper (n % 16) (Nat.mod_lt _ (by decide))]

theorem hex_digits_fixed_zero (w : Nat) : hex_digits_fixed w 0 = List.replicate w '0' := by
  induction w with
  | zero => rfl
  | succ w ih =>
    simp only [hex_digits_fixed, Nat.zero_div, Nat.zero_mod, ih]
    rw [List.replicate_succ']
    rfl

/-- Below `16 ^ w` the padded `%X` conversion is the fixed-width rendering. -/
theorem printf_X_core (fuel : Nat) :
    ∀ (n w : Nat), n < fuel → 1 ≤ w → n < 16 ^ w →
      List.replicate (w - (digits_core 16 fuel n).length) '0' ++ digits_core 16 fuel n
        = hex_digits_fixed w n := by
  induction fuel with
  | zero => intro n w h; omega
  | succ fuel ih =>
    intro n w hn hw hlt
    obtain ⟨w, rfl⟩ : ∃ v, w = v + 1 := ⟨w - 1, by omega⟩
    by_cases hb : n < 16
    · simp only [digits_core, hb, if_true, List.length_singleton, Nat.add_sub_cancel,
        hex_digits_fixed]
      have h1 : n / 16 = 0 := Nat.div_eq_of_lt hb
      have h2 : n % 16 = n := Nat.mod_eq_of_lt hb
      rw [h1, h2, hex_digits_fixed_zero]
    · have hw2 : 1 ≤ w := by
        rcases Nat.eq_zero_or_pos w with h0 | h0
        · subst h0; simp at hlt; omega
        · exact h0
      have hdiv : n / 16 < 16 ^ w := by
        rw [Nat.div_lt_iff_lt_mul (by decide)]
        rw [pow_succ] at hlt; exact hlt
      have hfuel : n / 16 < fuel := by omega
      have := ih (n / 16) w hfuel hw2 hdiv
      simp only [digits_core, hb, if_false, List.length_append, List.length_singleton,
        hex_digits_fixed]
      rw [← this, Nat.add_sub_add_right, List.append_assoc]

theorem printf_X_eq_fixed (w n : Nat) (hw : 1 ≤ w) (h : n < 16 ^ w) :
    printf_X w n = String.mk (hex_digits_fixed w n) := by
  unfold printf_X
  simp only
  rw [printf_X_core (n + 1) n w (Nat.lt_succ_self n) hw h]

/-- The program's decimal conversion agrees with the library's. -/
theorem toDigitsCore_eq (fuel : Nat) :
    ∀ (n : Nat) (ds : List Char),
      Nat.toDigitsCore 10 fuel n ds = digits_core 10 fuel n ++ ds := by
  induction fuel with
  | zero => intro n ds; rfl
  | succ fuel ih =>
    intro n ds
    have hd : (n % 10).digitChar = digitUpper (n % 10) := by
      have : n % 10 < 10 := Nat.mod_lt _ (by decide)
      interval_cases (n % 10) <;> rfl
    by_cases hb : n < 10
    · have h1 : n / 10 = 0 := Nat.div_eq_of_lt hb
      have h2 : n % 10 = n := Nat.mod_eq_of_lt hb
      simp only [Nat.toDigitsCore, digits_core, hb, if_true, h1]
      rw [hd, h2]
      rfl
    · have h1 : n / 10 ≠ 0 := by omega
      simp only [Nat.toDigitsCore, digits_core, hb, if_false, h1, hd, ih, List.append_assoc]
      rfl

theorem printf_u_eq_repr (n : Nat) : printf_u n = Nat.repr n := by
  simp only [printf_u, Nat.repr, Nat.toDigits, toDigitsCore_eq, List.append_nil]
  rfl

theorem join_spaces_snoc (xs : List (List Char)) (x : List Char) :
    join_spaces (xs ++ [x]) = (xs.map (fun t => t ++ [' '])).flatten ++ x := by
  induction xs with
  | nil => simp [join_spaces]
  | cons y ys ih =>
    cases ys with
    | nil => simp [join_spaces]
    | cons z zs =>
      have : (y :: z :: zs) ++ [x] = y :: z :: (zs ++ [x]) := rfl
      rw [this, join_spaces]
      have h2 : z :: (zs ++ [x]) = (z :: zs) ++ [x] := rfl
      rw [h2, ih]
      simp

theorem take_drop_eq_map_getD (buffer : List Nat) (off chunk : Nat)
    (h : off + chunk ≤ buffer.length) :
    (buffer.drop off).take chunk = (List.range chunk).map (fun j => buffer.getD (off + j) 0) := by
  apply List.ext_getElem
  · simp; omega
  · intro n h1 h2
    simp only [List.length_map, List.length_range] at h2
    rw [List.getElem_take, List.getElem_drop, List.getElem_map, List.getElem_range,
      List.getD_eq_getElem _ _ (by omega)]

theorem hex_line_bytes_fold (buffer : List Nat) (off chunk : Nat) (line : String) (k : Nat) :
    (List.range k).foldl
      (fun line j =>
        let line := line ++ printf_X 2 (buffer.getD (off + j) 0)
        if j < chunk - 1 then line ++ " " else line)
      line
    = line ++ String.mk (((List.range k).map (fun j =>
        (printf_X 2 (buffer.getD (off + j) 0)).data ++
          (if j < chunk - 1 then [' '] else []))).flatten) := by
  induction k with
  | zero =>
    apply String.ext
    simp
  | succ k ih =>
    rw [List.range_succ, List.foldl_append, ih]
    apply String.ext
    by_cases hk : k < chunk - 1 <;> simp [hk, String.data_append]

theorem hex_line_bytes_eq (buffer : List Nat) (off chunk : Nat) (line : String)
    (hc : 1 ≤ chunk) (hlen : off + chunk ≤ buffer.length) (hb : ∀ b ∈ buffer, b < 256) :
    hex_line_bytes buffer off chunk line
      = line ++ String.mk
          (join_spaces (((buffer.drop off).take chunk).map (hex_digits_fixed 2))) := by
  unfold hex_line_bytes
  rw [hex_line_bytes_fold]
  congr 2
  obtain ⟨m, rfl⟩ : ∃ m, chunk = m + 1 := ⟨chunk - 1, by omega⟩
  have hbyte : ∀ j, j < m + 1 →
      (printf_X 2 (buffer.getD (off + j) 0)).data
        = hex_digits_fixed 2 (buffer.getD (off + j) 0) := by
    intro j hj
    have hlt : buffer.getD (off + j) 0 < 256 := by
      rw [List.getD_eq_getElem _ _ (by omega)]
      exact hb _ (List.getElem_mem _)
    rw [printf_X_eq_fixed 2 _ (by decide) (by simpa using hlt)]
  rw [take_drop_eq_map_getD buffer off (m + 1) hlen, List.map_map, List.range_succ,
    List.map_append, List.map_append, List.map_singleton, List.map_singleton,
    join_spaces_snoc, List.flatten_append]
  simp only [Nat.add_sub_cancel, lt_self_iff_false, if_false,
    List.append_nil, List.flatten_cons, List.flatten_nil, Function.comp, List.map_map]
  rw [hbyte m (by omega)]
  congr 2
  apply List.map_congr_left
  intro j hj
  have hj2 : j < m := List.mem_range.mp hj
  simp only [Function.comp, hj2, if_true]
  rw [hbyte j (by omega)]

theorem hex_dump_loop_eq (buffer : List Nat) (hb : ∀ b ∈ buffer, b < 256)
    (hB : buffer.length ≤ 480) (fuel : Nat) :
    ∀ (i : Nat) (report : List String),
      (buffer.length + 31) / 32 ≤ i + fuel →
      hex_dump_loop buffer buffer.length fuel (32 * i) report
        = report ++ (List.range' i ((buffer.length + 31) / 32 - i)).map (spec_dump_line buffer) := by
  induction fuel with
  | zero =>
    intro i report h
    have : (buffer.length + 31) / 32 - i = 0 := by omega
    simp [hex_dump_loop, this]
  | succ fuel ih =>
    intro i report h
    unfold hex_dump_loop
    by_cases hlt : 32 * i < buffer.length
    · simp only [hlt, if_true]
      have hi : i < (buffer.length + 31) / 32 := by omega
      have hmul : 32 * i + 32 = 32 * (i + 1) := by ring
      rw [hmul, ih (i + 1) _ (by omega)]
      have hcnt : (buffer.length + 31) / 32 - i = ((buffer.length + 31) / 32 - (i + 1)) + 1 := by
        omega
      rw [hcnt, List.range'_succ, List.map_cons, List.append_assoc]
      congr 1
      simp only [List.singleton_append, List.cons.injEq, and_true]
      have hchunk : (if buffer.length - 32 * i > 32 then 32 else buffer.length - 32 * i)
          = min 32 (buffer.length - 32 * i) := by
        split_ifs <;> omega
      rw [hchunk, hex_line_bytes_eq buffer (32 * i) _ _ (by omega) (by omega) hb]
      have hoff : 32 * i % 2 ^ 32 = 32 * i := Nat.mod_eq_of_lt (by omega)
      rw [hoff, printf_X_eq_fixed 4 _ (by decide) (by norm_num; omega)]
      rfl
    · simp only [hlt, if_false]
      have : (buffer.length + 31) / 32 - i = 0 := by omega
      simp [this]

theorem hex_number_fixed (w n : Nat) :
    hex_number (hex_digits_fixed w n) = some (n % 16 ^ w) := by
  induction w generalizing n with
  | zero => simp [hex_number, hex_digits_fixed, Nat.mod_one]
  | succ w ih =>
    have h := ih (n / 16)
    unfold hex_number at h ⊢
    simp only [hex_digits_fixed, List.foldl_append, List.foldl_cons, List.foldl_nil, h,
      hex_value_digitUpper (n % 16) (Nat.mod_lt _ (by decide))]
    congr 1
    rw [pow_succ, Nat.mul_comm (16 ^ w) 16, Nat.mod_mul]
    omega

theorem foldl_snoc_eq_map {α β : Type} (f : α → β) (xs : List α) (init : List β) :
    xs.foldl (fun r x => r ++ [f x]) init = init ++ xs.map f := by
  induction xs generalizing init with
  | nil => simp
  | cons x xs ih => simp [ih]

theorem pow_16_16 : (16 : Nat) ^ 16 = 2 ^ 64 := by norm_num

theorem key_line_eq_spec (k : SubGhzKey) (hk : k.key < 2 ^ 64) (ht : k.type < 2 ^ 32) :
    key_line k = spec_key_line k := by
  unfold key_line spec_key_line
  have hk16 : k.key < 16 ^ 16 := by rw [pow_16_16]; exact hk
  rw [Nat.mod_eq_of_lt hk, Nat.mod_eq_of_lt ht,
    printf_X_eq_fixed 16 k.key (by decide) hk16, printf_u_eq_repr]
  rfl

theorem decrypt_standard_keystore_count_ext {σ : Type} (c : Collab σ) (st st2 : State σ)
    (path : String) (h : st.ext = st2.ext) :
    (decrypt_standard_keystore c st path).1 = (decrypt_standard_keystore c st2 path).1 := by
  unfold decrypt_standard_keystore
  rw [h]
  rcases c.subghz_keystore_alloc st2.ext with ⟨ok, e⟩
  cases ok with
  | false => rfl
  | true =>
    simp only
    rcases c.subghz_keystore_load e path with ⟨res, e2⟩
    cases res <;> rfl

theorem loop_body_totals {σ : Type} (c : Collab σ) (dir name : String)
    (acc : Totals × State σ) (hk : acc.1.total_keys < 2 ^ 32) :
    (loop_body c dir name acc).1.total_files = (acc.1.total_files + 1) % 2 ^ 32
    ∧ (loop_body c dir name acc).1.total_keys
        = (acc.1.total_keys + entry_keys c dir name acc.2) % 2 ^ 32 := by
  unfold loop_body entry_keys
  simp only
  rcases hd : detect_keystore_type c acc.2.ext (dir ++ "/" ++ name) 0 with ⟨ft, sz, e⟩
  cases ft with
  | KeystoreFileStandard =>
    simp only [size_add, SIZE_BITS]
    refine ⟨trivial, ?_⟩
    congr 2
    exact decrypt_standard_keystore_count_ext c _ _ _ rfl
  | KeystoreFileRaw =>
    simp only [size_add, SIZE_BITS, Nat.add_zero]
    exact ⟨trivial, (Nat.mod_eq_of_lt hk).symm⟩
  | KeystoreFileUnknown =>
    simp only [size_add, SIZE_BITS, Nat.add_zero]
    exact ⟨trivial, (Nat.mod_eq_of_lt hk).symm⟩

theorem dir_loop_totals {σ : Type} (c : Collab σ) (dir : String) (listing : List DirEntry) :
    ∀ (acc : Totals × State σ), acc.1.total_files < 2 ^ 32 → acc.1.total_keys < 2 ^ 32 →
      (dir_loop c dir listing acc).1.total_files
          = (acc.1.total_files + (regular_entries listing).length) % 2 ^ 32
      ∧ (dir_loop c dir listing acc).1.total_keys
          = (acc.1.total_keys + (key_counts c dir listing acc).sum) % 2 ^ 32 := by
  induction listing with
  | nil =>
    intro acc hf hk
    simp only [dir_loop, key_counts, regular_entries, List.filter_nil, List.length_nil,
      List.sum_nil, Nat.add_zero]
    exact ⟨(Nat.mod_eq_of_lt hf).symm, (Nat.mod_eq_of_lt hk).symm⟩
  | cons entry rest ih =>
    intro acc hf hk
    by_cases hdir : entry.is_dir = true
    · have h := ih (acc.1, { acc.2 with events := acc.2.events ++ [Event.dir_read] }) hf hk
      simp only [dir_loop, key_counts, regular_entries, hdir, if_true, List.filter_cons,
        Bool.not_true, Bool.false_eq_true, if_false] at h ⊢
      exact h
    · have hb := loop_body_totals c dir entry.name
        (acc.1, { acc.2 with events := acc.2.events ++ [Event.dir_read] }) hk
      have h := ih (loop_body c dir entry.name
        (acc.1, { acc.2 with events := acc.2.events ++ [Event.dir_read] }))
        (by rw [hb.1]; exact Nat.mod_lt _ (by norm_num))
        (by rw [hb.2]; exact Nat.mod_lt _ (by norm_num))
      simp only [Bool.not_eq_true] at hdir
      simp only [dir_loop, key_counts, regular_entries, hdir, if_false, List.filter_cons,
        Bool.not_false, if_true, List.length_cons, List.sum_cons, Bool.false_eq_true] at h ⊢
      rw [h.1, h.2, hb.1, hb.2]
      simp only [regular_entries]
      constructor
      · omega
      · omega

theorem is_upper_hex_digitUpper (d : Nat) : is_upper_hex (digitUpper d) = true := by
  unfold digitUpper
  split <;> rfl

theorem is_upper_hex_ne (ch : Char) (h : is_upper_hex ch = true) : ch ≠ '\n' ∧ ch ≠ '#' := by
  constructor
  · rintro rfl
    exact absurd h (by decide)
  · rintro rfl
    exact absurd h (by decide)

theorem digits_core_upper (base fuel : Nat) :
    ∀ n, ∀ ch ∈ digits_core base fuel n, is_upper_hex ch = true := by
  induction fuel with
  | zero => intro n ch h; simp [digits_core] at h
  | succ fuel ih =>
    intro n ch h
    unfold digits_core at h
    split_ifs at h
    · simp only [List.mem_singleton] at h
      subst h
      exact is_upper_hex_digitUpper _
    · simp only [List.mem_append, List.mem_singleton] at h
      rcases h with h | h
      · exact ih _ ch h
      · subst h
        exact is_upper_hex_digitUpper _

theorem digits_core_ne_nil (base n : Nat) : digits_core base (n + 1) n ≠ [] := by
  unfold digits_core
  split_ifs <;> simp

theorem printf_u_upper (n : Nat) : ∀ ch ∈ (printf_u n).data, is_upper_hex ch = true :=
  digits_core_upper 10 (n + 1) n

theorem printf_X_upper (w n : Nat) : ∀ ch ∈ (printf_X w n).data, is_upper_hex ch = true := by
  intro ch h
  simp only [printf_X, List.mem_append, List.mem_replicate] at h
  rcases h with ⟨_, h⟩ | h
  · subst h; rfl
  · exact digits_core_upper 16 (n + 1) n ch h

theorem printf_X_ne_nil (w n : Nat) : (printf_X w n).data ≠ [] := by
  simp only [printf_X, ne_eq, List.append_eq_nil, not_and]
  intro _
  exact digits_core_ne_nil 16 n

theorem chl_skip (cs rest : List Char) (h : ∀ ch ∈ cs, ch ≠ '\n') :
    count_hash_lines false (cs ++ rest) = count_hash_lines false rest := by
  induction cs with
  | nil => rfl
  | cons c cs ih =>
    have hc : (c == '\n') = false := by
      simpa using h c (List.mem_cons_self _ _)
    have := ih (fun ch hch => h ch (List.mem_cons_of_mem _ hch))
    simp [count_hash_lines, hc, this]

theorem chl_newline (rest : List Char) (b : Bool) :
    count_hash_lines b ('\n' :: rest) = count_hash_lines true rest := by
  simp [count_hash_lines]

/-- A line that does not begin with `#` holds no annotation. -/
theorem chl_data_line (c : Char) (cs rest : List Char) (hc : c ≠ '\n' ∧ c ≠ '#')
    (hplain : ∀ ch ∈ cs, ch ≠ '\n') :
    count_hash_lines true (c :: (cs ++ '\n' :: rest)) = count_hash_lines true rest := by
  have hc1 : (c == '\n') = false := by simpa using hc.1
  have hc2 : (c == '#') = false := by simpa using hc.2
  have hs := chl_skip cs ('\n' :: rest) hplain
  simp [count_hash_lines, hc1, hc2] at hs ⊢
  exact hs

/-- A line that begins with `#` is one annotation. -/
theorem chl_hash_line (cs rest : List Char) (h : ∀ ch ∈ cs, ch ≠ '\n') :
    count_hash_lines true ('#' :: (cs ++ '\n' :: rest)) = 1 + count_hash_lines true rest := by
  have hs := chl_skip cs ('\n' :: rest) h
  simp [count_hash_lines] at hs ⊢
  exact hs

theorem chl_no_annotation (lines : List String) (rest : List Char)
    (h : ∀ l ∈ lines, ∀ r, count_hash_lines true (l.data ++ r) = count_hash_lines true r) :
    count_hash_lines true ((lines.map String.data).flatten ++ rest)
      = count_hash_lines true rest := by
  induction lines with
  | nil => rfl
  | cons l ls ih =>
    simp only [List.map_cons, List.flatten_cons, List.append_assoc]
    rw [h l (List.mem_cons_self _ _)]
    exact ih (fun l2 h2 => h l2 (List.mem_cons_of_mem _ h2))

theorem printf_X_cons (w n : Nat) :
    ∃ c tail, (printf_X w n).data = c :: tail ∧ is_upper_hex c = true
      ∧ ∀ ch ∈ tail, is_upper_hex ch = true := by
  have hne := printf_X_ne_nil w n
  have hup := printf_X_upper w n
  cases hdata : (printf_X w n).data with
  | nil => exact absurd hdata hne
  | cons c tail =>
    rw [hdata] at hup
    exact ⟨c, tail, rfl, hup c (List.mem_cons_self _ _),
      fun ch hch => hup ch (List.mem_cons_of_mem _ hch)⟩

theorem key_line_no_annotation (k : SubGhzKey) (hname : ∀ ch ∈ k.name.data, ch ≠ '\n')
    (r : List Char) :
    count_hash_lines true ((key_line k).data ++ r) = count_hash_lines true r := by
  obtain ⟨c, tail, hX, hc, htail⟩ := printf_X_cons 16 (k.key % 2 ^ 64)
  have hdata : (key_line k).data ++ r
      = c :: ((tail ++ ':' :: ((printf_u (k.type % 2 ^ 32)).data ++ ':' :: k.name.data))
          ++ '\n' :: r) := by
    simp only [key_line, String.data_append, hX]
    simp
  rw [hdata]
  apply chl_data_line c _ r (is_upper_hex_ne c hc)
  intro ch hch
  simp only [List.mem_append, List.mem_cons] at hch
  rcases hch with h | h | h | h | h
  · exact (is_upper_hex_ne ch (htail ch h)).1
  · subst h; decide
  · exact (is_upper_hex_ne ch (printf_u_upper _ ch h)).1
  · subst h; decide
  · exact hname ch h

theorem hex_dump_loop_no_annotation (buffer : List Nat) (data_size fuel : Nat) :
    ∀ (off : Nat) (report : List String),
      ∃ lines, hex_dump_loop buffer data_size fuel off report = report ++ lines
        ∧ ∀ l ∈ lines, ∀ r,
            count_hash_lines true (l.data ++ r) = count_hash_lines true r := by
  induction fuel with
  | zero => intro off report; exact ⟨[], by simp [hex_dump_loop], by simp⟩
  | succ fuel ih =>
    intro off report
    unfold hex_dump_loop
    by_cases hlt : off < data_size
    · simp only [hlt, if_true]
      obtain ⟨lines, hl, hp⟩ := ih (off + 32) (report ++
        [hex_line_bytes buffer off (if data_size - off > 32 then 32 else data_size - off)
          (printf_X 4 (off % 2 ^ 32) ++ ": ") ++ "\n"])
      refine ⟨_ :: lines, by rw [hl, List.append_assoc]; rfl, ?_⟩
      intro l hmem r
      rcases List.mem_cons.mp hmem with h | h
      · subst h
        obtain ⟨c, tail, hX, hc, htail⟩ := printf_X_cons 4 (off % 2 ^ 32)
        unfold hex_line_bytes
        rw [hex_line_bytes_fold]
        generalize (if data_size - off > 32 then 32 else data_size - off) = chunk
        have hdata : ∀ body : List Char,
            (printf_X 4 (off % 2 ^ 32) ++ ": " ++ String.mk body ++ "\n").data ++ r
              = c :: ((tail ++ ':' :: ' ' :: body) ++ '\n' :: r) := by
          intro body
          simp only [String.data_append, hX]
          simp
        rw [hdata]
        apply chl_data_line c _ r (is_upper_hex_ne c hc)
        intro ch hch
        simp only [List.mem_append, List.mem_cons, List.mem_flatten, List.mem_map,
          List.mem_range] at hch
        rcases hch with h | h | h | ⟨tok, ⟨j, _, rfl⟩, h⟩
        · exact (is_upper_hex_ne ch (htail ch h)).1
        · subst h; decide
        · subst h; decide
        · simp only [List.mem_append] at h
          rcases h with h | h
          · exact (is_upper_hex_ne ch (printf_X_upper _ _ ch h)).1
          · split_ifs at h
            · simp only [List.mem_singleton] at h
              subst h; decide
            · simp at h
      · exact hp l h r
    · simp only [hlt, if_false]
      exact ⟨[], by simp, by simp⟩

theorem file_line_standard (name : String) (hname : ∀ ch ∈ name.data, ch ≠ '\n')
    (r : List Char) :
    count_hash_lines true (("\n# File: " ++ name ++ " (standard keystore)\n").data ++ r)
      = 1 + count_hash_lines true r := by
  have hdata : ("\n# File: " ++ name ++ " (standard keystore)\n").data ++ r
      = '\n' :: '#' :: ((" File: ".data ++ name.data ++ " (standard keystore)".data)
          ++ '\n' :: r) := by
    simp [String.data_append]
  rw [hdata, chl_newline, chl_hash_line]
  intro ch hch
  simp only [List.mem_append] at hch
  rcases hch with (h | h) | h
  · revert ch; decide
  · exact hname ch h
  · revert ch; decide

theorem file_line_unknown (name : String) (hname : ∀ ch ∈ name.data, ch ≠ '\n')
    (r : List Char) :
    count_hash_lines true (("\n# File: " ++ name ++ " (unknown format, skipped)\n").data ++ r)
      = 1 + count_hash_lines true r := by
  have hdata : ("\n# File: " ++ name ++ " (unknown format, skipped)\n").data ++ r
      = '\n' :: '#' :: ((" File: ".data ++ name.data ++ " (unknown format, skipped)".data)
          ++ '\n' :: r) := by
    simp [String.data_append]
  rw [hdata, chl_newline, chl_hash_line]
  intro ch hch
  simp only [List.mem_append] at hch
  rcases hch with (h | h) | h
  · revert ch; decide
  · exact hname ch h
  · revert ch; decide

theorem file_line_raw (name : String) (n : Nat) (hname : ∀ ch ∈ name.data, ch ≠ '\n')
    (r : List Char) :
    count_hash_lines true
        (("\n# File: " ++ name ++ " (RAW keystore, " ++ printf_u n ++ " bytes)\n").data ++ r)
      = 1 + count_hash_lines true r := by
  have hdata : ("\n# File: " ++ name ++ " (RAW keystore, " ++ printf_u n ++ " bytes)\n").data ++ r
      = '\n' :: '#' :: ((" File: ".data ++ name.data ++ " (RAW keystore, ".data
          ++ (printf_u n).data ++ " bytes)".data) ++ '\n' :: r) := by
    simp [String.data_append]
  rw [hdata, chl_newline, chl_hash_line]
  intro ch hch
  simp only [List.mem_append] at hch
  rcases hch with (((h | h) | h) | h) | h
  · revert ch; decide
  · exact hname ch h
  · revert ch; decide
  · exact (is_upper_hex_ne ch (printf_u_upper _ ch h)).1
  · revert ch; decide

theorem too_large_line (n : Nat) (r : List Char) :
    count_hash_lines true (("# (RAW data too large: " ++ printf_u n ++ " bytes)\n").data ++ r)
      = 1 + count_hash_lines true r := by
  have hdata : ("# (RAW data too large: " ++ printf_u n ++ " bytes)\n").data ++ r
      = '#' :: ((" (RAW data too large: ".data ++ (printf_u n).data ++ " bytes)".data)
          ++ '\n' :: r) := by
    simp [String.data_append]
  rw [hdata, chl_hash_line]
  intro ch hch
  simp only [List.mem_append] at hch
  rcases hch with (h | h) | h
  · revert ch; decide
  · exact (is_upper_hex_ne ch (printf_u_upper _ ch h)).1
  · revert ch; decide

theorem hex_digits_fixed_two (b : Nat) :
    hex_digits_fixed 2 b = [digitUpper (b / 16 % 16), digitUpper (b % 16)] := by
  simp [hex_digits_fixed]

theorem hex_number_byte (b : Nat) (hb : b < 256) :
    hex_number [digitUpper (b / 16 % 16), digitUpper (b % 16)] = some b := by
  rw [← hex_digits_fixed_two, hex_number_fixed]
  congr 1
  exact Nat.mod_eq_of_lt (by norm_num; exact hb)

theorem decode_tokens_join (bytes : List Nat) (hb : ∀ b ∈ bytes, b < 256) :
    decode_tokens (join_spaces (bytes.map (hex_digits_fixed 2))) = some bytes := by
  induction bytes with
  | nil => rfl
  | cons b rest ih =>
    have hb0 : b < 256 := hb b (List.mem_cons_self _ _)
    have hrest := ih (fun x hx => hb x (List.mem_cons_of_mem _ hx))
    cases rest with
    | nil =>
      simp only [List.map_cons, List.map_nil, join_spaces, hex_digits_fixed_two, decode_tokens,
        hex_number_byte b hb0]
    | cons b2 rest2 =>
      simp only [List.map_cons] at hrest ⊢
      simp only [join_spaces, hex_digits_fixed_two b, List.cons_append, List.nil_append,
        decode_tokens, if_true, hex_number_byte b hb0]
      rw [hrest]

theorem spec_dump_line_decode (buffer : List Nat) (hb : ∀ b ∈ buffer, b < 256) (i : Nat) :
    decode_line (spec_dump_line buffer i) = some (spec_line_bytes buffer i) := by
  have hbytes : ∀ b ∈ spec_line_bytes buffer i, b < 256 := by
    intro b hmem
    exact hb b (List.mem_of_mem_drop (List.mem_of_mem_take hmem))
  have hdata : ∀ body : List Char,
      ((String.mk (hex_digits_fixed 4 (32 * i)) ++ ": " ++ String.mk body ++ "\n").data.drop 6).dropLast
        = body := by
    intro body
    have h4 := hex_digits_fixed_length 4 (32 * i)
    have hsplit : (String.mk (hex_digits_fixed 4 (32 * i)) ++ ": " ++ String.mk body ++ "\n").data
        = (hex_digits_fixed 4 (32 * i) ++ [':', ' ']) ++ (body ++ ['\n']) := by
      simp [String.data_append]
    rw [hsplit, List.drop_append_of_le_length (by simp [h4])]
    have hlen : (hex_digits_fixed 4 (32 * i) ++ [':', ' ']).length = 6 := by simp [h4]
    rw [List.drop_of_length_le (by omega), List.nil_append, List.dropLast_concat]
  unfold decode_line spec_dump_line
  rw [hdata, decode_tokens_join _ hbytes]

theorem spec_line_bytes_flatten (buffer : List Nat) (n : Nat) :
    ((List.range n).map (spec_line_bytes buffer)).flatten = buffer.take (32 * n) := by
  induction n with
  | zero => simp
  | succ n ih =>
    rw [List.range_succ, List.map_append, List.flatten_append, ih]
    simp only [List.map_cons, List.map_nil, List.flatten_cons, List.flatten_nil,
      List.append_nil, spec_line_bytes]
    have hmin : (buffer.drop (32 * n)).take (min 32 (buffer.length - 32 * n))
        = (buffer.drop (32 * n)).take 32 := by
      rw [List.take_eq_take]
      simp only [List.length_drop]
      omega
    rw [hmin, ← List.take_add]
    congr 1

theorem decode_dump_spec (buffer : List Nat) (hb : ∀ b ∈ buffer, b < 256) (idx : List Nat) :
    decode_dump (idx.map (spec_dump_line buffer))
      = some ((idx.map (spec_line_bytes buffer)).flatten) := by
  induction idx with
  | nil => rfl
  | cons i rest ih =>
    unfold decode_dump at ih ⊢
    simp only [List.map_cons, List.foldr_cons, ih, spec_dump_line_decode buffer hb i,
      List.flatten_cons]

theorem decode_dump_roundtrip (buffer : List Nat) (hb : ∀ b ∈ buffer, b < 256) :
    decode_dump ((List.range ((buffer.length + 31) / 32)).map (spec_dump_line buffer))
      = some buffer := by
  rw [decode_dump_spec buffer hb, spec_line_bytes_flatten, List.take_of_length_le (by omega)]

/-- Result of `decrypt_raw_keystore` when the length is in range and both the
allocation and the raw decrypt call succeed. -/
theorem decrypt_raw_keystore_success {σ : Type} (c : Collab σ) (st : State σ)
    (path : String) (buffer : List Nat) (e1 e2 : σ)
    (hB1 : 1 ≤ buffer.length) (hB2 : buffer.length ≤ 480)
    (hbytes : ∀ b ∈ buffer, b < 256)
    (hmalloc : c.malloc st.ext buffer.length = (true, e1))
    (hget : c.subghz_keystore_raw_get_data e1 path 0 buffer.length = (some buffer, e2)) :
    decrypt_raw_keystore c st path buffer.length =
      (true,
        { ext := e2,
          report := st.report ++
            (List.range ((buffer.length + 31) / 32)).map (spec_dump_line buffer),
          events := st.events ++ [Event.raw_get_data path 0 buffer.length] }) := by
  have hguard : ¬ (buffer.length = 0 ∨ buffer.length > RAW_DECRYPT_MAX) := by
    simp only [RAW_DECRYPT_MAX]; omega
  simp only [decrypt_raw_keystore, hguard, if_false, hmalloc, hget]
  have := hex_dump_loop_eq buffer hbytes hB2 buffer.length 0 st.report (by omega)
  simp only [Nat.mul_zero, Nat.sub_zero] at this
  rw [this, List.range_eq_range']

/-! ## Claims -/

/-- C1: for a declared length `n` that is 0 or above 480, `decrypt_raw_keystore`
calls no service at all (the service state and the trace are unchanged), writes the
single line `# (RAW data too large: <n> bytes)` with `n` in decimal, and returns
false; and for every `n`, each raw decrypt call it records has offset 0 and a length
`n` with `1 ≤ n ≤ 480`. -/
theorem decrypt_raw_keystore_range_guard {σ : Type} (c : Collab σ) (st : State σ)
    (path : String) (n : Nat) :
    ((n = 0 ∨ n > 480) →
      decrypt_raw_keystore c st path n =
        (false,
          { ext := st.ext,
            report := st.report ++ ["# (RAW data too large: " ++ toString n ++ " bytes)\n"],
            events := st.events }))
    ∧ ∃ calls, (decrypt_raw_keystore c st path n).2.events = st.events ++ calls ∧
        ∀ ev ∈ calls, ev = Event.raw_get_data path 0 n ∧ 1 ≤ n ∧ n ≤ 480 := by
  have hrepr : printf_u n = toString n := printf_u_eq_repr n
  constructor
  · intro h
    have h2 : n = 0 ∨ n > RAW_DECRYPT_MAX := h
    simp only [decrypt_raw_keystore, h2, if_true, hrepr]
  · by_cases h : n = 0 ∨ n > RAW_DECRYPT_MAX
    · refine ⟨[], ?_, by simp⟩
      simp only [decrypt_raw_keystore, h, if_true, List.append_nil]
    · have hr : 1 ≤ n ∧ n ≤ 480 := by
        simp only [RAW_DECRYPT_MAX] at h
        omega
      simp only [decrypt_raw_keystore, h, if_false]
      rcases hm : c.malloc st.ext n with ⟨ok, e⟩
      cases ok with
      | false => exact ⟨[], by simp, by simp⟩
      | true =>
        rcases hg : c.subghz_keystore_raw_get_data e path 0 n with ⟨res, e2⟩
        cases res with
        | none =>
          refine ⟨[Event.raw_get_data path 0 n], by simp [hg], ?_⟩
          intro ev hev
          simp only [List.mem_singleton] at hev
          exact ⟨hev, hr⟩
        | some buffer =>
          refine ⟨[Event.raw_get_data path 0 n], by simp [hg], ?_⟩
          intro ev hev
          simp only [List.mem_singleton] at hev
          exact ⟨hev, hr⟩

/-- Witness for C1: a declared length of 481 bytes, with services that would
succeed. -/
theorem decrypt_raw_keystore_range_guard_witness :
    (481 = 0 ∨ 481 > 480) ∧
    decrypt_raw_keystore raw_ok ⟨(), [], []⟩ "k" 481 =
      (false, { ext := (), report := ["# (RAW data too large: 481 bytes)\n"], events := [] }) :=
  ⟨by decide,
    (decrypt_raw_keystore_range_guard raw_ok ⟨(), [], []⟩ "k" 481).1 (by decide)⟩

/-- C2: for a buffer of `B` bytes, `1 ≤ B ≤ 480`, on which the allocation and the raw
decrypt call succeed, `decrypt_raw_keystore` returns true and appends exactly
`ceil(B/32)` lines, line `i` being the offset `32 * i` as four uppercase hex digits,
`": "`, the `min 32 (B - 32 * i)` bytes from `32 * i` as two uppercase hex digits each
separated by single spaces, and a newline; the last line holds
`B - 32 * floor((B - 1) / 32)` bytes. -/
theorem decrypt_raw_keystore_hex_dump {σ : Type} (c : Collab σ) (st : State σ)
    (path : String) (B : Nat) (buffer : List Nat) (e1 e2 : σ)
    (hB1 : 1 ≤ B) (hB2 : B ≤ 480) (hlen : buffer.length = B)
    (hbytes : ∀ b ∈ buffer, b < 256)
    (hmalloc : c.malloc st.ext B = (true, e1))
    (hget : c.subghz_keystore_raw_get_data e1 path 0 B = (some buffer, e2)) :
    decrypt_raw_keystore c st path B =
      (true,
        { ext := e2,
          report := st.report ++ (List.range ((B + 31) / 32)).map (spec_dump_line buffer),
          events := st.events ++ [Event.raw_get_data path 0 B] })
    ∧ (B + 31) / 32 = (B - 1) / 32 + 1
    ∧ (∀ i, i < (B + 31) / 32 → (spec_line_bytes buffer i).length = min 32 (B - 32 * i))
    ∧ (spec_line_bytes buffer ((B - 1) / 32)).length = B - 32 * ((B - 1) / 32) := by
  subst hlen
  refine ⟨decrypt_raw_keystore_success c st path buffer e1 e2 hB1 hB2 hbytes hmalloc hget,
    by omega, ?_, ?_⟩
  · intro i _
    simp only [spec_line_bytes, List.length_take, List.length_drop]
    omega
  · simp only [spec_line_bytes, List.length_take, List.length_drop]
    omega

/-- Witness for C2: a buffer of 64 bytes gives two lines of 32 bytes each, with
offsets `0000:` and `0020:`. -/
theorem decrypt_raw_keystore_hex_dump_witness :
    (decrypt_raw_keystore raw_ok ⟨(), [], []⟩ "k" 64).2.report =
      ["0000: 00 01 02 03 04 05 06 07 08 09 0A 0B 0C 0D 0E 0F 10 11 12 13 14 15 16 17 18 19 1A 1B 1C 1D 1E 1F\n",
       "0020: 20 21 22 23 24 25 26 27 28 29 2A 2B 2C 2D 2E 2F 30 31 32 33 34 35 36 37 38 39 3A 3B 3C 3D 3E 3F\n"]
    ∧ (spec_line_bytes (List.range 64) 0).length = 32
    ∧ (spec_line_bytes (List.range 64) 1).length = 32 := by
  have h := decrypt_raw_keystore_hex_dump raw_ok ⟨(), [], []⟩ "k" 64 (List.range 64) () ()
    (by decide) (by decide) (by decide) (by decide) rfl rfl
  refine ⟨?_, by decide, by decide⟩
  rw [h.1]
  decide

/-- C3: when the keystore loads with the records `keys` (64-bit keys, type codes that
fit an unsigned int), `decrypt_standard_keystore` appends exactly one line per record,
in the order of the records, each being the key as exactly 16 uppercase hex digits
that write the key, a colon, the type code in decimal, a colon, the name verbatim and
a newline; and it returns the number of records. -/
theorem decrypt_standard_keystore_lines {σ : Type} (c : Collab σ) (st : State σ)
    (path : String) (keys : List SubGhzKey) (e1 e2 : σ)
    (hwf : ∀ k ∈ keys, k.key < 2 ^ 64 ∧ k.type < 2 ^ 32)
    (halloc : c.subghz_keystore_alloc st.ext = (true, e1))
    (hload : c.subghz_keystore_load e1 path = (some keys, e2)) :
    decrypt_standard_keystore c st path =
      (keys.length,
        { ext := e2,
          report := st.report ++ keys.map spec_key_line,
          events := st.events ++ [Event.keystore_load path] })
    ∧ (keys.map spec_key_line).length = keys.length
    ∧ ∀ k ∈ keys,
        (hex_digits_fixed 16 k.key).length = 16
        ∧ (∀ ch ∈ hex_digits_fixed 16 k.key, is_upper_hex ch = true)
        ∧ hex_number (hex_digits_fixed 16 k.key) = some k.key := by
  have hmap : keys.map key_line = keys.map spec_key_line :=
    List.map_congr_left (fun k hk => key_line_eq_spec k (hwf k hk).1 (hwf k hk).2)
  refine ⟨?_, List.length_map _ _, ?_⟩
  · simp only [decrypt_standard_keystore, halloc, hload, foldl_snoc_eq_map, hmap]
  · intro k hk
    have hval : hex_number (hex_digits_fixed 16 k.key) = some k.key := by
      rw [hex_number_fixed, pow_16_16, Nat.mod_eq_of_lt (hwf k hk).1]
    exact ⟨hex_digits_fixed_length 16 k.key, hex_digits_fixed_upper 16 k.key, hval⟩

/-- Witness for C3: a keystore with three records, one of them with a small key and
one with a colon in its name. -/
theorem decrypt_standard_keystore_lines_witness :
    decrypt_standard_keystore standard_ok ⟨(), [], []⟩ "keys" =
      (3,
        { ext := (),
          report := ["1122334455667788:1:Alpha\n", "00000000000000AB:2:Beta\n",
                     "FFFFFFFFFFFFFFFF:10:Gamma:x\n"],
          events := [Event.keystore_load "keys"] }) := by
  have h := (decrypt_standard_keystore_lines standard_ok ⟨(), [], []⟩ "keys" sample_keys () ()
    (by decide) rfl rfl).1
  rw [h]
  decide

/-- C4: when the file cannot be opened, or its header cannot be read, or its header
is neither the standard tag with version 0 nor the raw tag with version 0,
`detect_keystore_type` returns `KeystoreFileUnknown`, and the driver's loop body
writes for that file exactly the line `# File: <name> (unknown format, skipped)`
after a blank line, and calls neither decrypt service (nothing but the detection is
recorded, and the service state is the one the detection left). -/
theorem detect_unknown_skipped {σ : Type} (c : Collab σ) (dir name : String)
    (t : Totals) (st : State σ)
    (h : (∃ e, c.flipper_format_file_open_existing st.ext (dir ++ "/" ++ name) = (false, e))
      ∨ (∃ e1 e2, c.flipper_format_file_open_existing st.ext (dir ++ "/" ++ name) = (true, e1)
            ∧ c.flipper_format_read_header e1 = (none, e2))
      ∨ (∃ e1 e2 ft v,
            c.flipper_format_file_open_existing st.ext (dir ++ "/" ++ name) = (true, e1)
            ∧ c.flipper_format_read_header e1 = (some (ft, v), e2)
            ∧ ¬ (ft = "Flipper SubGhz Keystore File" ∧ v = 0)
            ∧ ¬ (ft = "Flipper SubGhz Keystore RAW File" ∧ v = 0))) :
    (∀ sz, (detect_keystore_type c st.ext (dir ++ "/" ++ name) sz).1 = KeystoreFileUnknown)
    ∧ (loop_body c dir name (t, st)).2 =
        { ext := (detect_keystore_type c st.ext (dir ++ "/" ++ name) 0).2.2,
          report := st.report ++ ["\n# File: " ++ name ++ " (unknown format, skipped)\n"],
          events := st.events ++ [Event.detect (dir ++ "/" ++ name)] } := by
  have hd : ∀ sz, ∃ e,
      detect_keystore_type c st.ext (dir ++ "/" ++ name) sz = (KeystoreFileUnknown, sz, e) := by
    intro sz
    rcases h with ⟨e, h1⟩ | ⟨e1, e2, h1, h2⟩ | ⟨e1, e2, ft, v, h1, h2, h3, h4⟩
    · exact ⟨e, by simp only [detect_keystore_type, h1]⟩
    · exact ⟨e2, by simp only [detect_keystore_type, h1, h2]⟩
    · exact ⟨e2, by simp only [detect_keystore_type, h1, h2, h3, h4, if_false]⟩
  constructor
  · intro sz
    obtain ⟨e, he⟩ := hd sz
    rw [he]
  · obtain ⟨e, he⟩ := hd 0
    simp only [loop_body, he]

/-- Witness for C4: a file that cannot be opened. -/
theorem detect_unknown_skipped_witness :
    (loop_body failing "/ks" "x" (⟨0, 0⟩, ⟨(), [], []⟩)).2 =
      { ext := (),
        report := ["\n# File: x (unknown format, skipped)\n"],
        events := [Event.detect "/ks/x"] } := by
  have h := (detect_unknown_skipped failing "/ks" "x" ⟨0, 0⟩ ⟨(), [], []⟩
    (Or.inl ⟨(), rfl⟩)).2
  rw [h]
  decide

/-- C5: for a file with the raw keystore header (version 0) whose `Encryption` and
`Encrypt_data` fields read successfully (whatever the `IV` read does), if after the
one-byte skip the stream holds `L` more characters, `detect_keystore_type` returns
`KeystoreFileRaw` and sets the payload length to `L / 2` (rounded down), which is
(stream size - cursor position) / 2; an odd `L` loses its last character. -/
theorem detect_raw_payload_length {σ : Type} (c : Collab σ) (s : σ) (path : String)
    (sz L : Nat) (e1 e2 e3 e4 : σ)
    (hopen : c.flipper_format_file_open_existing s path = (true, e1))
    (hhdr : c.flipper_format_read_header e1 = (some ("Flipper SubGhz Keystore RAW File", 0), e2))
    (henc : c.flipper_format_read_uint32 e2 "Encryption" = (true, e3))
    (hstr : c.flipper_format_read_string (c.flipper_format_read_hex e3 "IV" 16).2 "Encrypt_data"
              = (true, e4))
    (hsize : c.stream_size (c.stream_read e4 1) = c.stream_tell (c.stream_read e4 1) + L)
    (hfit : c.stream_size (c.stream_read e4 1) < 2 ^ 32) :
    detect_keystore_type c s path sz = (KeystoreFileRaw, L / 2, c.stream_read e4 1)
    ∧ L / 2 = (c.stream_size (c.stream_read e4 1) - c.stream_tell (c.stream_read e4 1)) / 2
    ∧ (L % 2 = 1 → 2 * (L / 2) = L - 1) := by
  have hsub : size_sub (c.stream_size (c.stream_read e4 1)) (c.stream_tell (c.stream_read e4 1))
      = L := by
    unfold size_sub SIZE_BITS
    rw [hsize] at hfit ⊢
    omega
  refine ⟨?_, by omega, by omega⟩
  simp [detect_keystore_type, hopen, hhdr, henc, hstr, hsub]

/-- Witness for C5: 129 characters follow the delimiter, giving 64 bytes. -/
theorem detect_raw_payload_length_witness :
    detect_keystore_type raw_file 0 "/ks/raw" 0 = (KeystoreFileRaw, 129 / 2, 139)
    ∧ 129 / 2 = 64 :=
  ⟨(detect_raw_payload_length raw_file 0 "/ks/raw" 0 129 0 50 64 138 rfl rfl rfl rfl rfl
      (by decide)).1, by decide⟩

/-- C6 fails as stated: with the raw header and an unreadable `Encrypt_data` field
the classification is `KeystoreFileRaw`, not `KeystoreFileUnknown`. -/
theorem detect_raw_field_failure_counterexample :
    (raw_truncated.flipper_format_read_header ()).1
        = some ("Flipper SubGhz Keystore RAW File", 0)
    ∧ (raw_truncated.flipper_format_read_string () "Encrypt_data").1 = false
    ∧ detect_keystore_type raw_truncated () "/ks/cut" 0 = (KeystoreFileRaw, 0, ())
    ∧ (detect_keystore_type raw_truncated () "/ks/cut" 0).1 ≠ KeystoreFileUnknown := by
  decide

/-- C6 amended: for a file with the raw keystore header (version 0), if reading the
`Encryption` field or the `Encrypt_data` field fails, `detect_keystore_type` stops
measuring the payload, still returns `KeystoreFileRaw`, and leaves the payload length
as the caller passed it. -/
theorem detect_raw_field_failure {σ : Type} (c : Collab σ) (s : σ) (path : String)
    (sz : Nat) (e1 e2 : σ)
    (hopen : c.flipper_format_file_open_existing s path = (true, e1))
    (hhdr : c.flipper_format_read_header e1 = (some ("Flipper SubGhz Keystore RAW File", 0), e2))
    (hfail : (∃ e3, c.flipper_format_read_uint32 e2 "Encryption" = (false, e3))
      ∨ (∃ e3 e4, c.flipper_format_read_uint32 e2 "Encryption" = (true, e3)
          ∧ c.flipper_format_read_string (c.flipper_format_read_hex e3 "IV" 16).2 "Encrypt_data"
              = (false, e4))) :
    (detect_keystore_type c s path sz).1 = KeystoreFileRaw
    ∧ (detect_keystore_type c s path sz).2.1 = sz := by
  rcases hfail with ⟨e3, h3⟩ | ⟨e3, e4, h3, h4⟩
  · simp [detect_keystore_type, hopen, hhdr, h3]
  · simp [detect_keystore_type, hopen, hhdr, h3, h4]

/-- Witness for the amended C6: the `Encrypt_data` field cannot be read. -/
theorem detect_raw_field_failure_witness :
    (detect_keystore_type raw_truncated () "/ks/cut" 7).1 = KeystoreFileRaw
    ∧ (detect_keystore_type raw_truncated () "/ks/cut" 7).2.1 = 7 :=
  detect_raw_field_failure raw_truncated () "/ks/cut" 7 () () rfl rfl
    (Or.inr ⟨(), (), rfl, rfl⟩)

/-- C8: when both opening calls succeed and the counts fit `size_t`, at the end of the
loop the files-processed total is the number of entries that are not directories,
whatever each was classified as and however its decryption went, and the keys-written
total is the sum over those entries of the count returned by
`decrypt_standard_keystore` for the entries classified Standard and 0 for the others;
a failed load returns 0. -/
theorem mfkeys_decrypt_app_totals {σ : Type} (c : Collab σ) (dir out : String) (s e1 e2 : σ)
    (listing : List DirEntry)
    (hopen : c.storage_file_open s out = (true, e1))
    (hdir : c.storage_dir_open e1 dir = (some listing, e2))
    (hfiles : (regular_entries listing).length < 2 ^ 32)
    (hkeys : (key_counts c dir listing (loop_start dir out e2)).sum < 2 ^ 32) :
    (mfkeys_decrypt_app c dir out s).totals.total_files = (regular_entries listing).length
    ∧ (mfkeys_decrypt_app c dir out s).totals.total_keys
        = (key_counts c dir listing (loop_start dir out e2)).sum
    ∧ (key_counts c dir listing (loop_start dir out e2)).length = (regular_entries listing).length
    ∧ (∀ (st : State σ) (path : String) (a b : σ), c.subghz_keystore_alloc st.ext = (true, a) →
        c.subghz_keystore_load a path = (none, b) →
        (decrypt_standard_keystore c st path).1 = 0) := by
  have h := dir_loop_totals c dir listing (loop_start dir out e2) (by simp [loop_start])
    (by simp [loop_start])
  have hlen : ∀ (l : List DirEntry) (acc : Totals × State σ),
      (key_counts c dir l acc).length = (regular_entries l).length := by
    intro l
    induction l with
    | nil => intro acc; rfl
    | cons entry rest ih =>
      intro acc
      by_cases hd : entry.is_dir = true
      · have h1 := ih (acc.1, { acc.2 with events := acc.2.events ++ [Event.dir_read] })
        simp only [regular_entries] at h1
        simp [key_counts, regular_entries, hd, h1]
      · simp only [Bool.not_eq_true] at hd
        have h1 := ih (loop_body c dir entry.name
          (acc.1, { acc.2 with events := acc.2.events ++ [Event.dir_read] }))
        simp only [regular_entries] at h1
        simp [key_counts, regular_entries, hd, h1]
  refine ⟨?_, ?_, hlen _ _, ?_⟩
  · simp only [mfkeys_decrypt_app, hopen, hdir]
    have h1 := h.1
    simp only [loop_start, Nat.zero_add] at h1
    rw [h1]
    exact Nat.mod_eq_of_lt hfiles
  · simp only [mfkeys_decrypt_app, hopen, hdir]
    have h2 := h.2
    simp only [loop_start, Nat.zero_add] at h2 hkeys
    rw [h2]
    exact Nat.mod_eq_of_lt hkeys
  · intro st path a b ha hb
    simp only [decrypt_standard_keystore, ha, hb]

/-- Witness for C8: one standard keystore file with three records gives one file
processed and three keys written. -/
theorem mfkeys_decrypt_app_totals_witness :
    (mfkeys_decrypt_app standard_ok "/ks" "/out" ()).totals.total_files = 1
    ∧ (mfkeys_decrypt_app standard_ok "/ks" "/out" ()).totals.total_keys = 3 := by
  have h := mfkeys_decrypt_app_totals standard_ok "/ks" "/out" () () () [⟨"keys", false⟩]
    rfl rfl (by decide) (by decide)
  exact ⟨h.1, h.2.1⟩

/-- C9: if opening the report fails, or opening the keystore directory fails,
`mfkeys_decrypt_app` returns -1, records no directory read, no detection and no
decrypt call, and writes no per-file line (the report is empty or holds the header
only); in every other case it returns 0. -/
theorem mfkeys_decrypt_app_status {σ : Type} (c : Collab σ) (dir out : String) (s : σ) :
    ((c.storage_file_open s out).1 = false
        ∨ (c.storage_dir_open (c.storage_file_open s out).2 dir).1 = none →
      (mfkeys_decrypt_app c dir out s).status = -1
      ∧ (∀ ev ∈ (mfkeys_decrypt_app c dir out s).state.events,
          ev = Event.file_open out ∨ ev = Event.dir_open dir)
      ∧ ((mfkeys_decrypt_app c dir out s).state.report = []
          ∨ (mfkeys_decrypt_app c dir out s).state.report = [header]))
    ∧ (¬ ((c.storage_file_open s out).1 = false
        ∨ (c.storage_dir_open (c.storage_file_open s out).2 dir).1 = none) →
      (mfkeys_decrypt_app c dir out s).status = 0) := by
  unfold mfkeys_decrypt_app
  rcases hopen : c.storage_file_open s out with ⟨ok, e1⟩
  cases ok with
  | false =>
    refine ⟨fun _ => ⟨rfl, ?_, Or.inl rfl⟩, fun h => absurd (Or.inl rfl) h⟩
    intro ev hev
    simp only [List.mem_singleton] at hev
    exact Or.inl hev
  | true =>
    simp only
    rcases hdir : c.storage_dir_open e1 dir with ⟨res, e2⟩
    cases res with
    | none =>
      refine ⟨fun _ => ⟨rfl, ?_, Or.inr rfl⟩, fun h => absurd (Or.inr rfl) h⟩
      intro ev hev
      simp only [List.mem_cons, List.mem_singleton, List.not_mem_nil, or_false] at hev
      exact hev
    | some listing =>
      refine ⟨fun h => ?_, fun _ => rfl⟩
      rcases h with h | h
      · exact absurd h (by simp)
      · exact absurd h (by simp)

/-- Witness for C9: the report cannot be opened. -/
theorem mfkeys_decrypt_app_status_witness :
    (mfkeys_decrypt_app failing "/ks" "/out" ()).status = -1
    ∧ (mfkeys_decrypt_app failing "/ks" "/out" ()).state.report = []
    ∧ (mfkeys_decrypt_app raw_file "/ks" "/out" 0).status = 0 := by
  have h := (mfkeys_decrypt_app_status failing "/ks" "/out" ()).1 (Or.inl rfl)
  have h2 := (mfkeys_decrypt_app_status raw_file "/ks" "/out" 0).2 (by decide)
  exact ⟨h.1, by decide, h2⟩

/-- C7 fails as stated: a standard keystore file that fails to load contributes two
annotation lines, the file line and the failure line. -/
theorem loop_body_annotations_counterexample :
    (loop_body standard_broken "/ks" "keys" (⟨0, 0⟩, ⟨(), [], []⟩)).2.report
        = ["\n# File: keys (standard keystore)\n", "# (failed to decrypt)\n"]
    ∧ annotation_lines (loop_body standard_broken "/ks" "keys" (⟨0, 0⟩, ⟨(), [], []⟩)).2.report = 2
    ∧ annotation_lines (loop_body standard_broken "/ks" "keys" (⟨0, 0⟩, ⟨(), [], []⟩)).2.report ≠ 1 := by
  decide

/-- C7 amended: the loop body classifies its entry exactly once.  Its first write is
the `# File:` line of the entry (`entry_file_line`), which is exactly one annotation
line.  When the decryption fails with a report (failed load, raw length 0 or above
480, failed raw decrypt) the only other write is the failure line
(`entry_failure_line`), exactly one further annotation line, two in total.  Otherwise
(success, unknown file, failed allocation) the remaining writes hold no annotation
line, one in total.  Names are taken to hold no newline. -/
theorem loop_body_annotations {σ : Type} (c : Collab σ) (dir name : String) (t : Totals)
    (st : State σ)
    (hname : ∀ ch ∈ name.data, ch ≠ '\n')
    (hrec : ∀ (e e2 : σ) (p : String) (keys : List SubGhzKey),
      c.subghz_keystore_load e p = (some keys, e2) →
        ∀ k ∈ keys, ∀ ch ∈ k.name.data, ch ≠ '\n') :
    ∃ data calls,
      (loop_body c dir name (t, st)).2.report
          = st.report ++ entry_file_line c dir name st ::
              ((entry_failure_line c dir name st).toList ++ data)
      ∧ (loop_body c dir name (t, st)).2.events
          = st.events ++ Event.detect (dir ++ "/" ++ name) :: calls
      ∧ (∀ ev ∈ calls, is_detect ev = false)
      ∧ annotation_lines [entry_file_line c dir name st] = 1
      ∧ (∀ l ∈ (entry_failure_line c dir name st).toList, annotation_lines [l] = 1)
      ∧ ((entry_failure_line c dir name st).isSome = true → data = [])
      ∧ annotation_lines data = 0
      ∧ (entry_failure_line c dir name st).isSome = reports_failure c dir name st
      ∧ annotation_lines (entry_file_line c dir name st ::
            ((entry_failure_line c dir name st).toList ++ data))
          = if reports_failure c dir name st = true then 2 else 1 := by
  have hrepr : ∀ n, printf_u n = toString n := printf_u_eq_repr
  have hfail1 : annotation_lines ["# (failed to decrypt)\n"] = 1 := by decide
  have hfail2 : annotation_lines ["# (failed to decrypt RAW data)\n"] = 1 := by decide
  unfold loop_body reports_failure entry_file_line entry_failure_line
  simp only
  rcases hd : detect_keystore_type c st.ext (dir ++ "/" ++ name) 0 with ⟨ft, sz, e⟩
  cases ft with
  | KeystoreFileStandard =>
    have hfile : annotation_lines ["\n# File: " ++ name ++ " (standard keystore)\n"] = 1 := by
      have h := file_line_standard name hname []
      simpa [annotation_lines] using h
    simp only [decrypt_standard_keystore]
    obtain ⟨ok, e1, ha⟩ : ∃ ok e1, c.subghz_keystore_alloc e = (ok, e1) := ⟨_, _, rfl⟩
    simp only [ha]
    cases ok with
    | false =>
      refine ⟨[], [], by simp, by simp, by simp, hfile, by simp, by simp, by decide, by simp,
        by simpa using hfile⟩
    | true =>
      obtain ⟨res, e2, hl⟩ : ∃ res e2, c.subghz_keystore_load e1 (dir ++ "/" ++ name) = (res, e2) :=
        ⟨_, _, rfl⟩
      simp only [hl]
      cases res with
      | none =>
        refine ⟨[], [Event.keystore_load (dir ++ "/" ++ name)], by simp, by simp,
          by simp [is_detect], hfile, by simpa using hfail1, by simp, by decide, by simp, ?_⟩
        have h := file_line_standard name hname ("# (failed to decrypt)\n".data)
        have h2 : count_hash_lines true ("# (failed to decrypt)\n".data) = 1 := by decide
        rw [h2] at h
        simpa [annotation_lines] using h
      | some keys =>
        have h2 := chl_no_annotation (keys.map key_line) []
          (fun l hlm r => by
            obtain ⟨k, hk, rfl⟩ := List.mem_map.mp hlm
            exact key_line_no_annotation k (hrec e1 e2 _ keys hl k hk) r)
        simp only [List.append_nil] at h2
        have h0 : annotation_lines (keys.map key_line) = 0 := by
          simpa [annotation_lines, count_hash_lines] using h2
        refine ⟨keys.map key_line, [Event.keystore_load (dir ++ "/" ++ name)],
          by simp [foldl_snoc_eq_map], by simp, by simp [is_detect], hfile, by simp, by simp,
          h0, by simp, ?_⟩
        have h := file_line_standard name hname ((keys.map key_line).map String.data).flatten
        rw [h2] at h
        simpa [annotation_lines, count_hash_lines] using h
  | KeystoreFileRaw =>
    have hfile : annotation_lines
        ["\n# File: " ++ name ++ " (RAW keystore, " ++ toString sz ++ " bytes)\n"] = 1 := by
      have h := file_line_raw name sz hname []
      rw [hrepr] at h
      simpa [annotation_lines] using h
    simp only [decrypt_raw_keystore, hrepr]
    by_cases hg : sz = 0 ∨ sz > RAW_DECRYPT_MAX
    · simp only [hg, if_true]
      have h2 := too_large_line sz []
      simp only [List.append_nil, hrepr] at h2
      refine ⟨[], [], by simp, by simp, by simp, hfile,
        by simpa [annotation_lines] using h2, by simp, by decide, by simp, ?_⟩
      have h := file_line_raw name sz hname
        (("# (RAW data too large: " ++ toString sz ++ " bytes)\n").data)
      rw [h2, hrepr] at h
      simpa [annotation_lines, count_hash_lines] using h
    · simp only [hg, if_false]
      obtain ⟨ok, e1, hm⟩ : ∃ ok e1, c.malloc e sz = (ok, e1) := ⟨_, _, rfl⟩
      simp only [hm]
      cases ok with
      | false =>
        refine ⟨[], [], by simp, by simp, by simp, hfile, by simp, by simp, by decide,
          by simp, by simpa using hfile⟩
      | true =>
        obtain ⟨res, e2, hr⟩ :
            ∃ res e2, c.subghz_keystore_raw_get_data e1 (dir ++ "/" ++ name) 0 sz = (res, e2) :=
          ⟨_, _, rfl⟩
        simp only [hr]
        cases res with
        | none =>
          refine ⟨[], [Event.raw_get_data (dir ++ "/" ++ name) 0 sz], by simp, by simp,
            by simp [is_detect], hfile, by simpa using hfail2, by simp, by decide, by simp, ?_⟩
          have h := file_line_raw name sz hname ("# (failed to decrypt RAW data)\n".data)
          have h2 : count_hash_lines true ("# (failed to decrypt RAW data)\n".data) = 1 := by
            decide
          rw [h2, hrepr] at h
          simpa [annotation_lines] using h
        | some buffer =>
          obtain ⟨lines, hl, hp⟩ := hex_dump_loop_no_annotation buffer sz sz 0
            (st.report ++ ["\n# File: " ++ name ++ " (RAW keystore, " ++ toString sz ++ " bytes)\n"])
          have h2 := chl_no_annotation lines [] hp
          simp only [List.append_nil] at h2
          have h0 : annotation_lines lines = 0 := by
            simpa [annotation_lines, count_hash_lines] using h2
          refine ⟨lines, [Event.raw_get_data (dir ++ "/" ++ name) 0 sz], by simp [hl], by simp,
            by simp [is_detect], hfile, by simp, by simp, h0, by simp, ?_⟩
          have h := file_line_raw name sz hname (lines.map String.data).flatten
          rw [h2, hrepr] at h
          simpa [annotation_lines, count_hash_lines] using h
  | KeystoreFileUnknown =>
    have hfile : annotation_lines ["\n# File: " ++ name ++ " (unknown format, skipped)\n"] = 1 := by
      have h := file_line_unknown name hname []
      simpa [annotation_lines] using h
    refine ⟨[], [], by simp, by simp, by simp, hfile, by simp, by simp, by decide, by simp,
      by simpa using hfile⟩

/-- Witness for the amended C7: a standard keystore file that fails to load, in a
run where no record name holds a newline: the writes are the `# File:` line and the
failure line, two annotation lines. -/
theorem loop_body_annotations_witness :
    entry_file_line standard_broken "/ks" "keys" ⟨(), [], []⟩
        = "\n# File: keys (standard keystore)\n"
    ∧ entry_failure_line standard_broken "/ks" "keys" ⟨(), [], []⟩
        = some "# (failed to decrypt)\n"
    ∧ ∃ data calls,
      (loop_body standard_broken "/ks" "keys" (⟨0, 0⟩, ⟨(), [], []⟩)).2.report
          = [] ++ entry_file_line standard_broken "/ks" "keys" ⟨(), [], []⟩ ::
              ((entry_failure_line standard_broken "/ks" "keys" ⟨(), [], []⟩).toList ++ data)
      ∧ (loop_body standard_broken "/ks" "keys" (⟨0, 0⟩, ⟨(), [], []⟩)).2.events
          = [] ++ Event.detect ("/ks" ++ "/" ++ "keys") :: calls
      ∧ (∀ ev ∈ calls, is_detect ev = false)
      ∧ annotation_lines [entry_file_line standard_broken "/ks" "keys" ⟨(), [], []⟩] = 1
      ∧ (∀ l ∈ (entry_failure_line standard_broken "/ks" "keys" ⟨(), [], []⟩).toList,
          annotation_lines [l] = 1)
      ∧ ((entry_failure_line standard_broken "/ks" "keys" ⟨(), [], []⟩).isSome = true → data = [])
      ∧ annotation_lines data = 0
      ∧ (entry_failure_line standard_broken "/ks" "keys" ⟨(), [], []⟩).isSome
          = reports_failure standard_broken "/ks" "keys" ⟨(), [], []⟩
      ∧ annotation_lines (entry_file_line standard_broken "/ks" "keys" ⟨(), [], []⟩ ::
            ((entry_failure_line standard_broken "/ks" "keys" ⟨(), [], []⟩).toList ++ data))
          = if reports_failure standard_broken "/ks" "keys" ⟨(), [], []⟩ = true then 2 else 1 :=
  ⟨by decide, by decide,
    loop_body_annotations standard_broken "/ks" "keys" ⟨0, 0⟩ ⟨(), [], []⟩ (by decide)
      (fun e e2 p keys h => by
        have : (none : Option (List SubGhzKey)) = some keys := congrArg Prod.fst h
        exact absurd this (by simp))⟩

/-- C10: the hex dump loses nothing.  For a buffer of 1 to 480 bytes on which the
allocation and the raw decrypt call succeed, decoding the lines that
`decrypt_raw_keystore` appends (each line without its `OFFS: ` prefix and newline,
tokens read as two-digit hex numbers, lines in order) gives back the buffer; hence any
other such buffer with the same dump is the same buffer. -/
theorem decrypt_raw_keystore_lossless {σ : Type} (c : Collab σ) (st : State σ)
    (path : String) (B : Nat) (buffer : List Nat) (e1 e2 : σ)
    (hB1 : 1 ≤ B) (hB2 : B ≤ 480) (hlen : buffer.length = B)
    (hbytes : ∀ b ∈ buffer, b < 256)
    (hmalloc : c.malloc st.ext B = (true, e1))
    (hget : c.subghz_keystore_raw_get_data e1 path 0 B = (some buffer, e2)) :
    ∃ dump,
      (decrypt_raw_keystore c st path B).2.report = st.report ++ dump
      ∧ decode_dump dump = some buffer
      ∧ ∀ (τ : Type) (c2 : Collab τ) (st2 : State τ) (path2 : String) (B2 : Nat)
          (buffer2 : List Nat) (a1 a2 : τ),
          1 ≤ B2 → B2 ≤ 480 → buffer2.length = B2 → (∀ b ∈ buffer2, b < 256) →
          c2.malloc st2.ext B2 = (true, a1) →
          c2.subghz_keystore_raw_get_data a1 path2 0 B2 = (some buffer2, a2) →
          (decrypt_raw_keystore c2 st2 path2 B2).2.report = st2.report ++ dump →
          buffer2 = buffer := by
  subst hlen
  refine ⟨(List.range ((buffer.length + 31) / 32)).map (spec_dump_line buffer), ?_,
    decode_dump_roundtrip buffer hbytes, ?_⟩
  · rw [decrypt_raw_keystore_success c st path buffer e1 e2 hB1 hB2 hbytes hmalloc hget]
  · intro τ c2 st2 path2 B2 buffer2 a1 a2 h1 h2 hlen2 hb2 hm2 hg2 heq
    subst hlen2
    rw [decrypt_raw_keystore_success c2 st2 path2 buffer2 a1 a2 h1 h2 hb2 hm2 hg2] at heq
    have hdump := List.append_cancel_left heq
    have hdec := decode_dump_roundtrip buffer2 hb2
    rw [hdump, decode_dump_roundtrip buffer hbytes] at hdec
    exact (Option.some.inj hdec).symm

/-- Witness for C10: the dump of the 64 bytes `0, ..., 63` decodes to them. -/
theorem decrypt_raw_keystore_lossless_witness :
    decode_dump (decrypt_raw_keystore raw_ok ⟨(), [], []⟩ "k" 64).2.report
      = some (List.range 64) := by
  obtain ⟨dump, h1, h2, _⟩ := decrypt_raw_keystore_lossless raw_ok ⟨(), [], []⟩ "k" 64
    (List.range 64) () () (by decide) (by decide) (by decide) (by decide) rfl rfl
  rw [h1]
  exact h2


end Decryptor
